import Mathlib

/-!
Shallow embedding of the IOManager core (src/src/include/iomgr.hpp) from the
JacksonYao287/IOManager repository, with theorems settling the spec's claims.

Only iomgr.hpp is under src/: inline member functions are translated from their
source bodies; members that are merely declared there (their .cpp bodies are not
in the repository) are modelled from the spec, each marked `Modelled from the
spec:` in its doc comment.
-/

namespace Iomgr

/-- The state enum:
`ENUM(iomgr_state, uint16_t, stopped, interface_init, reactor_init, sys_init, running, stopping)`
(iomgr.hpp:43), constructors in declaration order. -/
inductive iomgr_state : Type where
  | stopped
  | interface_init
  | reactor_init
  | sys_init
  | running
  | stopping
deriving DecidableEq, Repr, Fintype

/-- The underlying `uint16_t` value of each enumerator, in declaration order. -/
def iomgr_state.toVal : iomgr_state → Nat
  | .stopped => 0
  | .interface_init => 1
  | .reactor_init => 2
  | .sys_init => 3
  | .running => 4
  | .stopping => 5

/-- Modelled from the spec: the set of state transitions the manager performs via
`set_state_and_notify` (iomgr.hpp:220-223); the bodies of `start` and `stop`,
which drive these transitions, are not under src/. Startup advances
stopped → interface_init → reactor_init → sys_init → running; shutdown goes
running → stopping → stopped; no other edges exist. -/
def iomgr_step : iomgr_state → iomgr_state → Bool
  | .stopped, .interface_init => true
  | .interface_init, .reactor_init => true
  | .reactor_init, .sys_init => true
  | .sys_init, .running => true
  | .running, .stopping => true
  | .stopping, .stopped => true
  | _, _ => false

/-- `static constexpr uint32_t max_msg_modules = 64;` (iomgr.hpp:68). -/
def max_msg_modules : Nat := 64

/-- The message-module registry of IOManager, generic in the handler type α:
`std::array< msg_handler_t, max_msg_modules > m_msg_handlers;` together with
`uint32_t m_msg_handlers_count = 0;` (iomgr.hpp:259-260). A slot holding `none`
is a default-constructed (empty) `std::function`. -/
structure MsgModuleTable (α : Type) : Type where
  m_msg_handlers : List (Option α)
  m_msg_handlers_count : Nat
deriving DecidableEq, Repr

/-- The registry as default-constructed in IOManager: 64 empty slots, count 0. -/
def MsgModuleTable.start_table (α : Type) : MsgModuleTable α :=
  ⟨List.replicate max_msg_modules none, 0⟩

/-- Modelled from the spec: `register_msg_module(handler)` (declared
iomgr.hpp:187, body not under src/) installs the handler in the next free slot
(0..63) and returns its id; once the 64-slot table is exhausted it fails
(returns an invalid handle, modelled as `none`) and leaves the table unchanged. -/
def register_msg_module (t : MsgModuleTable α) (handler : α) :
    Option Nat × MsgModuleTable α :=
  if t.m_msg_handlers_count < max_msg_modules then
    (some t.m_msg_handlers_count,
     ⟨t.m_msg_handlers.set t.m_msg_handlers_count (some handler),
      t.m_msg_handlers_count + 1⟩)
  else (none, t)

/-- Register a sequence of handlers one after another, collecting the returned
module ids alongside the final table. -/
def registerAll (t : MsgModuleTable α) : List α → List (Option Nat) × MsgModuleTable α
  | [] => ([], t)
  | h :: rest =>
    let p := register_msg_module t h
    let q := registerAll p.2 rest
    (p.1 :: q.1, q.2)

/-- Write the handlers `hs` into consecutive slots of `l` starting at index `c`. -/
def setFrom (l : List (Option α)) (c : Nat) : List α → List (Option α)
  | [] => l
  | h :: rest => setFrom (l.set c (some h)) (c + 1) rest

lemma set_append_len (pre : List β) (b : β) (x : β) (suf : List β) :
    (pre ++ x :: suf).set pre.length b = pre ++ b :: suf := by
  induction pre with
  | nil => rfl
  | cons p ps ih => simp [List.set, ih]

lemma setFrom_append (hs : List α) : ∀ (pre suf : List (Option α)),
    hs.length ≤ suf.length →
    setFrom (pre ++ suf) pre.length hs = pre ++ hs.map some ++ suf.drop hs.length := by
  induction hs with
  | nil => intro pre suf _; simp [setFrom]
  | cons h rest ih =>
    intro pre suf hle
    cases suf with
    | nil => simp at hle
    | cons s0 suf2 =>
      simp only [setFrom, set_append_len]
      have h2 : rest.length ≤ suf2.length := by
        simpa [Nat.succ_le_succ_iff] using hle
      have := ih (pre ++ [some h]) suf2 (by simpa using h2)
      simp only [List.length_append, List.length_cons, List.length_nil] at this
      simpa [List.append_assoc, List.drop, Nat.add_comm] using this

lemma registerAll_eq (hs : List α) : ∀ (t : MsgModuleTable α),
    t.m_msg_handlers_count + hs.length ≤ max_msg_modules →
    registerAll t hs =
      ((List.range' t.m_msg_handlers_count hs.length).map some,
       ⟨setFrom t.m_msg_handlers t.m_msg_handlers_count hs,
        t.m_msg_handlers_count + hs.length⟩) := by
  induction hs with
  | nil => intro t _; simp [registerAll, setFrom]
  | cons h rest ih =>
    intro t hb
    have hlt : t.m_msg_handlers_count < max_msg_modules := by
      simp only [List.length_cons] at hb; omega
    have hstep : register_msg_module t h =
        (some t.m_msg_handlers_count,
         ⟨t.m_msg_handlers.set t.m_msg_handlers_count (some h),
          t.m_msg_handlers_count + 1⟩) := by
      simp [register_msg_module, hlt]
    have hb2 : (t.m_msg_handlers_count + 1) + rest.length ≤ max_msg_modules := by
      simp only [List.length_cons] at hb; omega
    have hrest := ih ⟨t.m_msg_handlers.set t.m_msg_handlers_count (some h),
        t.m_msg_handlers_count + 1⟩ hb2
    simp only [registerAll, hstep, hrest, List.length_cons, List.range'_succ,
      List.map_cons, setFrom, Prod.mk.injEq, List.cons.injEq, MsgModuleTable.mk.injEq]
    repeat' apply And.intro
    all_goals first | trivial | omega

lemma register_full (t : MsgModuleTable α) (h : α)
    (hc : t.m_msg_handlers_count = max_msg_modules) :
    register_msg_module t h = (none, t) := by
  simp [register_msg_module, hc]

/-- **C1.** Starting from the default-constructed table, registering 64 handlers
succeeds at every step with the distinct, stable ids 0..63 in order; each id `i`
maps to exactly the i-th installed handler; the table stays at its fixed 64-slot
capacity; and a 65th registration fails (returns `none`) without modifying any
of the 64 installed handlers. -/
theorem register_msg_module_caps_at_64 (α : Type) (hs : List α)
    (hlen : hs.length = 64) :
    (registerAll (MsgModuleTable.start_table α) hs).1 = (List.range 64).map some ∧
    (registerAll (MsgModuleTable.start_table α) hs).1.Nodup ∧
    (registerAll (MsgModuleTable.start_table α) hs).2.m_msg_handlers = hs.map some ∧
    (registerAll (MsgModuleTable.start_table α) hs).2.m_msg_handlers.length = 64 ∧
    (registerAll (MsgModuleTable.start_table α) hs).2.m_msg_handlers_count = 64 ∧
    (∀ h65 : α,
      register_msg_module (registerAll (MsgModuleTable.start_table α) hs).2 h65 =
        (none, (registerAll (MsgModuleTable.start_table α) hs).2)) := by
  have hb : (MsgModuleTable.start_table α).m_msg_handlers_count + hs.length ≤
      max_msg_modules := by
    simp [MsgModuleTable.start_table, hlen, max_msg_modules]
  have heq := registerAll_eq hs (MsgModuleTable.start_table α) hb
  have hset : setFrom (MsgModuleTable.start_table α).m_msg_handlers 0 hs = hs.map some := by
    have := setFrom_append hs ([] : List (Option α))
        (List.replicate max_msg_modules none)
        (by simp [hlen, max_msg_modules])
    simpa [MsgModuleTable.start_table, hlen, max_msg_modules] using this
  have hids : (registerAll (MsgModuleTable.start_table α) hs).1 =
      (List.range 64).map some := by
    rw [heq]
    simp [MsgModuleTable.start_table, hlen, List.range_eq_range']
  have htbl : (registerAll (MsgModuleTable.start_table α) hs).2 =
      ⟨hs.map some, 64⟩ := by
    rw [heq]
    simp only [MsgModuleTable.start_table] at hset ⊢
    rw [hset]
    simp [hlen]
  refine ⟨hids, ?_, ?_, ?_, ?_, ?_⟩
  · rw [hids]
    exact (List.nodup_range 64).map (fun a b => by simp)
  · rw [htbl]
  · rw [htbl]; simp [hlen]
  · rw [htbl]
  · intro h65
    rw [htbl]
    exact register_full _ _ rfl

/-- Witness for C1 at a concrete input: registering the 64 handlers
`List.range 64` yields exactly the ids `some 0 .. some 63`. -/
theorem register_msg_module_caps_at_64_witness :
    (registerAll (MsgModuleTable.start_table Nat) (List.range 64)).1 =
      (List.range 64).map some :=
  (register_msg_module_caps_at_64 Nat (List.range 64) (by simp)).1

/-- **C2.** In the modelled transition relation: every startup edge (one whose
endpoints are not `stopping`) advances the state value by exactly one, so a
successful start never skips backward; `stopping` is entered only from
`running`; `stopping` leads only back to `stopped`; and the edge set is exactly
the five-step startup chain plus running → stopping → stopped, with no other
edges. -/
theorem state_machine_edges :
    (∀ s t : iomgr_state, iomgr_step s t = true →
      (s ≠ iomgr_state.stopping ∧ t ≠ iomgr_state.stopping →
        t.toVal = s.toVal + 1)) ∧
    (∀ s : iomgr_state, iomgr_step s iomgr_state.stopping = true →
      s = iomgr_state.running) ∧
    (∀ t : iomgr_state, iomgr_step iomgr_state.stopping t = true →
      t = iomgr_state.stopped) ∧
    (∀ s t : iomgr_state, iomgr_step s t = true ↔
      ((s, t) = (iomgr_state.stopped, iomgr_state.interface_init) ∨
       (s, t) = (iomgr_state.interface_init, iomgr_state.reactor_init) ∨
       (s, t) = (iomgr_state.reactor_init, iomgr_state.sys_init) ∨
       (s, t) = (iomgr_state.sys_init, iomgr_state.running) ∨
       (s, t) = (iomgr_state.running, iomgr_state.stopping) ∨
       (s, t) = (iomgr_state.stopping, iomgr_state.stopped))) := by
  refine ⟨?_, ?_, ?_, ?_⟩ <;> decide

/-- Witness for C2 at a concrete edge: sys_init → running advances the state
value by one. -/
theorem state_machine_edges_witness :
    iomgr_state.running.toVal = iomgr_state.sys_init.toVal + 1 :=
  state_machine_edges.1 iomgr_state.sys_init iomgr_state.running (by decide)
    ⟨by decide, by decide⟩

/-- The blocking wait `m_cv.wait(lck, pred)` as observed by the waiting thread:
`cur` is the state read at the first predicate check, `future` the states read
at successive condition-variable notifications. Per the C++ standard the
predicate is checked before any blocking, so if it already holds the call
returns at once. The result counts the observations consumed before the call
returns; `none` means the predicate never holds and the thread stays blocked. -/
def cv_wait (pred : iomgr_state → Bool) (cur : iomgr_state)
    (future : List iomgr_state) : Option Nat :=
  if pred cur then some 0
  else
    match future with
    | [] => none
    | s :: rest => (cv_wait pred s rest).map (fun n => n + 1)

/-- Index of the first observation equal to `e` in a list of state observations. -/
def first_reach (e : iomgr_state) : List iomgr_state → Option Nat
  | [] => none
  | s :: rest => if s = e then some 0 else (first_reach e rest).map (fun n => n + 1)

/-- `wait_to_be_ready()` (iomgr.hpp:145-148): takes the lock and waits on the
condition variable for `get_state() == iomgr_state::running`. -/
def wait_to_be_ready (cur : iomgr_state) (future : List iomgr_state) : Option Nat :=
  cv_wait (fun s => s == iomgr_state.running) cur future

/-- `wait_to_be_stopped()` (iomgr.hpp:150-155): takes the lock, and only when
`get_state() != iomgr_state::stopped` waits on the condition variable for the
state to become `stopped`. -/
def wait_to_be_stopped (cur : iomgr_state) (future : List iomgr_state) : Option Nat :=
  if cur ≠ iomgr_state.stopped then
    cv_wait (fun s => s == iomgr_state.stopped) cur future
  else some 0

/-- `wait_for_state(expected_state)` (iomgr.hpp:162-167): takes the lock, and
only when `get_state() != expected_state` waits on the condition variable for
the state to become `expected_state`. -/
def wait_for_state (expected_state : iomgr_state) (cur : iomgr_state)
    (future : List iomgr_state) : Option Nat :=
  if cur ≠ expected_state then
    cv_wait (fun s => s == expected_state) cur future
  else some 0

/-- `ensure_running()` (iomgr.hpp:169-175): when `get_state()` is not `running`,
logs and delegates to `wait_to_be_ready`; otherwise returns at once. -/
def ensure_running (cur : iomgr_state) (future : List iomgr_state) : Option Nat :=
  if cur ≠ iomgr_state.running then
    wait_to_be_ready cur future
  else some 0

lemma cv_wait_pos (pred : iomgr_state → Bool) (cur : iomgr_state)
    (future : List iomgr_state) (h : pred cur = true) :
    cv_wait pred cur future = some 0 := by
  cases future <;> simp [cv_wait, h]

lemma cv_wait_eq_first_reach (e : iomgr_state) :
    ∀ (future : List iomgr_state) (cur : iomgr_state),
      cv_wait (fun s => s == e) cur future = first_reach e (cur :: future) := by
  intro future
  induction future with
  | nil =>
    intro cur
    by_cases h : cur = e <;> simp [cv_wait, first_reach, h]
  | cons s rest ih =>
    intro cur
    by_cases h : cur = e
    · simp [cv_wait, first_reach, h]
    · simp [cv_wait, first_reach, h, ih s]

lemma first_reach_some (e : iomgr_state) :
    ∀ (l : List iomgr_state) (i : Nat), first_reach e l = some i →
      l.get? i = some e ∧ ∀ j, j < i → l.get? j ≠ some e := by
  intro l
  induction l with
  | nil => intro i h; simp [first_reach] at h
  | cons s rest ih =>
    intro i h
    by_cases hs : s = e
    · simp only [first_reach, if_pos hs] at h
      obtain rfl : (0 : Nat) = i := by simpa using h
      simp [hs]
    · simp only [first_reach, if_neg hs] at h
      cases hm : first_reach e rest with
      | none => rw [hm] at h; simp at h
      | some k =>
        rw [hm] at h
        simp only [Option.map_some'] at h
        obtain rfl : k + 1 = i := by simpa using h
        obtain ⟨h1, h2⟩ := ih k hm
        refine ⟨by simpa using h1, ?_⟩
        intro j hj
        cases j with
        | zero => simpa using hs
        | succ j2 =>
          have := h2 j2 (by omega)
          simpa using this

lemma first_reach_none (e : iomgr_state) :
    ∀ (l : List iomgr_state), first_reach e l = none →
      ∀ j, l.get? j ≠ some e := by
  intro l
  induction l with
  | nil => intro _ j; simp
  | cons s rest ih =>
    intro h j
    by_cases hs : s = e
    · simp [first_reach, hs] at h
    · simp only [first_reach, if_neg hs] at h
      cases hm : first_reach e rest with
      | none =>
        cases j with
        | zero => simpa using hs
        | succ j2 => simpa using ih hm j2
      | some k => rw [hm] at h; simp at h

lemma wait_for_state_eq_first_reach (e cur : iomgr_state)
    (future : List iomgr_state) :
    wait_for_state e cur future = first_reach e (cur :: future) := by
  by_cases h : cur = e
  · simp [wait_for_state, h, first_reach]
  · simp [wait_for_state, h, cv_wait_eq_first_reach e future cur]

lemma wait_to_be_ready_eq_first_reach (cur : iomgr_state)
    (future : List iomgr_state) :
    wait_to_be_ready cur future =
      first_reach iomgr_state.running (cur :: future) := by
  simp [wait_to_be_ready, cv_wait_eq_first_reach]

lemma wait_to_be_stopped_eq_first_reach (cur : iomgr_state)
    (future : List iomgr_state) :
    wait_to_be_stopped cur future =
      first_reach iomgr_state.stopped (cur :: future) := by
  by_cases h : cur = iomgr_state.stopped
  · simp [wait_to_be_stopped, h, first_reach]
  · simp [wait_to_be_stopped, h, cv_wait_eq_first_reach]

/-- **C3.** Each wait call returns exactly at the first observation satisfying
its predicate: `wait_for_state s`, `wait_to_be_ready`, `wait_to_be_stopped`
each equal `first_reach` of their target state over the observation sequence;
if the predicate already holds at the time of the call the result is `some 0`
(non-blocking fast path, safe before `start`); a blocked caller unblocks
exactly once the state first reaches the target (the returned index holds the
target state and no earlier index does); and if the state never reaches the
target the call never returns (`none`). -/
theorem wait_calls_block_until_state (expected cur : iomgr_state)
    (future : List iomgr_state) :
    wait_for_state expected cur future = first_reach expected (cur :: future) ∧
    wait_to_be_ready cur future =
      first_reach iomgr_state.running (cur :: future) ∧
    wait_to_be_stopped cur future =
      first_reach iomgr_state.stopped (cur :: future) ∧
    (cur = expected → wait_for_state expected cur future = some 0) ∧
    (cur = iomgr_state.running → wait_to_be_ready cur future = some 0) ∧
    (cur = iomgr_state.stopped → wait_to_be_stopped cur future = some 0) ∧
    (∀ i, wait_for_state expected cur future = some i →
      (cur :: future).get? i = some expected ∧
      ∀ j, j < i → (cur :: future).get? j ≠ some expected) ∧
    (wait_for_state expected cur future = none →
      ∀ j, (cur :: future).get? j ≠ some expected) := by
  refine ⟨wait_for_state_eq_first_reach expected cur future,
    wait_to_be_ready_eq_first_reach cur future,
    wait_to_be_stopped_eq_first_reach cur future, ?_, ?_, ?_, ?_, ?_⟩
  · intro h; simp [wait_for_state, h]
  · intro h; subst h
    exact cv_wait_pos _ _ _ (by simp)
  · intro h; simp [wait_to_be_stopped, h]
  · intro i hi
    exact first_reach_some expected (cur :: future) i
      ((wait_for_state_eq_first_reach expected cur future).symm.trans hi)
  · intro hn
    exact first_reach_none expected (cur :: future)
      ((wait_for_state_eq_first_reach expected cur future).symm.trans hn)

/-- Witness for C3 at a concrete input: called in state `stopped` with the
state later becoming `running`, `wait_for_state running` unblocks at index 1,
where the state is `running` and no earlier observation was. -/
theorem wait_calls_block_until_state_witness :
    ([iomgr_state.stopped, iomgr_state.running].get? 1 =
      some iomgr_state.running) ∧
    ∀ j, j < 1 → [iomgr_state.stopped, iomgr_state.running].get? j ≠
      some iomgr_state.running :=
  (wait_calls_block_until_state iomgr_state.running iomgr_state.stopped
    [iomgr_state.running]).2.2.2.2.2.2.1 1 (by decide)

/-- **C8.** `ensure_running` is exactly a wrapper over `wait_to_be_ready`: it
returns the same result on every input; when the state is already `running` it
returns at once (`some 0`, no waiting); and whenever it returns, the state has
been observed as `running` at the returned index. -/
theorem ensure_running_wraps_wait_to_be_ready (cur : iomgr_state)
    (future : List iomgr_state) :
    ensure_running cur future = wait_to_be_ready cur future ∧
    (cur = iomgr_state.running → ensure_running cur future = some 0) ∧
    (∀ i, ensure_running cur future = some i →
      (cur :: future).get? i = some iomgr_state.running) := by
  have heq : ensure_running cur future = wait_to_be_ready cur future := by
    by_cases h : cur = iomgr_state.running
    · subst h
      simp only [ensure_running, wait_to_be_ready, ne_eq, not_true_eq_false,
        if_false, ite_false]
      exact (cv_wait_pos _ _ _ (by simp)).symm
    · simp [ensure_running, h]
  refine ⟨heq, ?_, ?_⟩
  · intro h; simp [ensure_running, h]
  · intro i hi
    have : first_reach iomgr_state.running (cur :: future) = some i := by
      rw [← wait_to_be_ready_eq_first_reach, ← heq]; exact hi
    exact (first_reach_some iomgr_state.running (cur :: future) i this).1

/-- Witness for C8 at a concrete input: in state `running`, `ensure_running`
returns at once. -/
theorem ensure_running_wraps_wait_to_be_ready_witness :
    ensure_running iomgr_state.running [] = some 0 :=
  (ensure_running_wraps_wait_to_be_ready iomgr_state.running []).2.1 rfl

/-- `io_thread_t`: an opaque, copyable handle identifying one reactor thread
(reactor.hpp not under src/; modelled from the spec as the thread's stable
logical identifier). -/
abbrev io_thread_t : Type := Nat

/-- Modelled from the spec: `thread_regex` group selectors (reactor.hpp not
under src/): all, all-workers, all-tight-loop, random-worker,
random-tight-loop. -/
inductive thread_regex : Type where
  | all_threads
  | all_worker
  | all_tloop
  | random_worker
  | random_tloop
deriving DecidableEq, Repr

/-- Modelled from the spec: `iomgr_msg_type` (iomgr_msg.hpp not under src/):
the built-in RUN_METHOD type, which carries an arbitrary zero-argument
callable, plus interface-defined types. -/
inductive iomgr_msg_type : Type where
  | RUN_METHOD
  | interface_defined (n : Nat)
deriving DecidableEq, Repr

/-- Modelled from the spec: `iomgr_msg` (iomgr_msg.hpp not under src/): a
message with its type, the destination module identifier, and an opaque
payload of type F (for RUN_METHOD, the callable). `iomgr_msg::create(type,
module, fn)` is the anonymous constructor. -/
structure iomgr_msg (F : Type) : Type where
  m_type : iomgr_msg_type
  m_dest_module : Nat
  m_data : F
deriving DecidableEq, Repr

/-- Modelled from the spec: `sync_iomgr_msg` (iomgr_msg.hpp not under src/):
wraps a message with a completion signal shared between sender and receiver;
`sync_iomgr_msg(type, module, fn)` builds the wrapped message. -/
structure sync_iomgr_msg (F : Type) : Type where
  msg : iomgr_msg F
deriving DecidableEq, Repr

/-- The message-bus members `multicast_msg`, `multicast_msg_and_wait`,
`send_msg`, `send_msg_and_wait` are declared at iomgr.hpp:182-185 but their
bodies are not under src/; the `run_on` theorems hold for every implementation
of this record. The multicast members return the count of reactors reached;
the unicast members return whether the message was delivered. -/
structure MsgBus (F : Type) : Type where
  multicast_msg : thread_regex → iomgr_msg F → Int
  multicast_msg_and_wait : thread_regex → sync_iomgr_msg F → Int
  send_msg : io_thread_t → iomgr_msg F → Bool
  send_msg_and_wait : io_thread_t → sync_iomgr_msg F → Bool

/-- `run_on(thread_regex r, fn, wait_for_completion)` (iomgr.hpp:98-108):
builds a RUN_METHOD message tagged with `m_internal_msg_module_id` carrying
`fn`; with `wait_for_completion` it is a `sync_iomgr_msg` sent through
`multicast_msg_and_wait`, otherwise a plain message through `multicast_msg`;
returns the resulting `sent_to` count. -/
def run_on_regex (bus : MsgBus F) (m_internal_msg_module_id : Nat)
    (r : thread_regex) (fn : F) (wait_for_completion : Bool) : Int :=
  if wait_for_completion then
    bus.multicast_msg_and_wait r
      ⟨⟨iomgr_msg_type.RUN_METHOD, m_internal_msg_module_id, fn⟩⟩
  else
    bus.multicast_msg r ⟨iomgr_msg_type.RUN_METHOD, m_internal_msg_module_id, fn⟩

/-- `run_on(const io_thread_t& thread, fn, wait_for_completion)`
(iomgr.hpp:110-119): builds the same RUN_METHOD message for a single thread,
sends through `send_msg_and_wait` or `send_msg`, and returns `(int)sent`. -/
def run_on_thread (bus : MsgBus F) (m_internal_msg_module_id : Nat)
    (thread : io_thread_t) (fn : F) (wait_for_completion : Bool) : Int :=
  let sent : Bool :=
    if wait_for_completion then
      bus.send_msg_and_wait thread
        ⟨⟨iomgr_msg_type.RUN_METHOD, m_internal_msg_module_id, fn⟩⟩
    else
      bus.send_msg thread ⟨iomgr_msg_type.RUN_METHOD, m_internal_msg_module_id, fn⟩
  if sent then 1 else 0

/-- Modelled from the spec: during IOManager construction (body not under
src/) the manager registers its own internal message module — the handler that
runs the callable carried by RUN_METHOD messages — on the fresh table and
stores the returned id in `m_internal_msg_module_id` (iomgr.hpp:261); no user
registration is involved. -/
def internal_module_registration (α : Type) (run_method_handler : α) :
    Option Nat × MsgModuleTable α :=
  register_msg_module (MsgModuleTable.start_table α) run_method_handler

/-- **C4.** `run_on` over a `thread_regex` returns exactly the count reported
by the message bus: with `wait_for_completion=true` it is
`multicast_msg_and_wait` applied to the synchronous RUN_METHOD message tagged
with the manager's internal module id, with `wait_for_completion=false` it is
`multicast_msg` on the asynchronous one; and the internal module needs no user
registration: registering it on the fresh construction-time table succeeds
with an id mapped to the manager's own RUN_METHOD handler. -/
theorem run_on_regex_returns_reached_count (F : Type) (bus : MsgBus F)
    (internal_id : Nat) (r : thread_regex) (fn : F) :
    run_on_regex bus internal_id r fn true =
      bus.multicast_msg_and_wait r
        ⟨⟨iomgr_msg_type.RUN_METHOD, internal_id, fn⟩⟩ ∧
    run_on_regex bus internal_id r fn false =
      bus.multicast_msg r ⟨iomgr_msg_type.RUN_METHOD, internal_id, fn⟩ ∧
    (∀ (α : Type) (run_method_handler : α),
      (internal_module_registration α run_method_handler).1 = some 0 ∧
      (internal_module_registration α
        run_method_handler).2.m_msg_handlers.get? 0 = some (some run_method_handler)) := by
  refine ⟨rfl, rfl, ?_⟩
  intro α run_method_handler
  constructor
  · rfl
  · rfl

/-- **C10.** `run_on` addressed to a single `io_thread_t` returns the integer
conversion of the boolean delivery result: it is always 0 or 1 (for every fn,
bus, thread, and wait flag), and it is 1 exactly when the chosen send —
`send_msg_and_wait` when waiting, `send_msg` otherwise — delivered the
RUN_METHOD message. -/
theorem run_on_thread_returns_zero_or_one (F : Type) (bus : MsgBus F)
    (internal_id : Nat) (thread : io_thread_t) (fn : F)
    (wait_for_completion : Bool) :
    (run_on_thread bus internal_id thread fn wait_for_completion = 0 ∨
     run_on_thread bus internal_id thread fn wait_for_completion = 1) ∧
    (run_on_thread bus internal_id thread fn wait_for_completion = 1 ↔
      (if wait_for_completion then
        bus.send_msg_and_wait thread
          ⟨⟨iomgr_msg_type.RUN_METHOD, internal_id, fn⟩⟩
      else
        bus.send_msg thread
          ⟨iomgr_msg_type.RUN_METHOD, internal_id, fn⟩) = true) := by
  cases wait_for_completion with
  | false =>
    cases h : bus.send_msg thread ⟨iomgr_msg_type.RUN_METHOD, internal_id, fn⟩ with
    | false => simp [run_on_thread, h]
    | true => simp [run_on_thread, h]
  | true =>
    cases h : bus.send_msg_and_wait thread
        ⟨⟨iomgr_msg_type.RUN_METHOD, internal_id, fn⟩⟩ with
    | false => simp [run_on_thread, h]
    | true => simp [run_on_thread, h]

/-- Modelled from the spec: the live-reactor registry paired with each live
reactor's inbound message queue, keyed by the reactor's thread id. A stopped
reactor has no entry: its `io_thread_t` handle no longer resolves. -/
abbrev ReactorQueues (F : Type) : Type := List (io_thread_t × List (iomgr_msg F))

/-- Modelled from the spec: `send_msg(thread, msg)` (declared iomgr.hpp:182,
body not under src/): when the handle resolves to a live reactor, enqueue the
message on that reactor's inbound queue (waking it if it can block) and return
true; otherwise return false — the message is dropped, no queue changes, and
ownership of the message reverts to the caller for disposal. The function is
total: a stale handle can never make it crash. -/
def send_msg (reg : ReactorQueues F) (thread : io_thread_t)
    (msg : iomgr_msg F) : Bool × ReactorQueues F :=
  if reg.any (fun p => p.1 == thread) then
    (true, reg.map (fun p => if p.1 = thread then (p.1, p.2 ++ [msg]) else p))
  else (false, reg)

/-- Modelled from the spec: when a reactor stops (`reactor_stopped`,
iomgr.hpp:215, body not under src/), its entry leaves the registry, so handles
to it obtained earlier no longer resolve. -/
def reactor_stopped (reg : ReactorQueues F) (thread : io_thread_t) :
    ReactorQueues F :=
  reg.filter (fun p => p.1 ≠ thread)

/-- **C5.** `send_msg` on a handle that does not resolve to a live reactor
returns false and leaves every queue unchanged (the message is not delivered
and stays with the caller); in particular, at any point after the target
reactor's stop has removed it from the registry — whatever the registry
contents at that time — sending to its old handle returns false and changes
nothing; and the false result is never a false negative for a live reactor:
when the handle does resolve, `send_msg` returns true. -/
theorem send_msg_stale_handle_returns_false (F : Type) (reg : ReactorQueues F)
    (thread : io_thread_t) (msg : iomgr_msg F) :
    (thread ∉ reg.map Prod.fst → send_msg reg thread msg = (false, reg)) ∧
    send_msg (reactor_stopped reg thread) thread msg =
      (false, reactor_stopped reg thread) ∧
    (thread ∈ reg.map Prod.fst → (send_msg reg thread msg).1 = true) := by
  refine ⟨?_, ?_, ?_⟩
  · intro hmem
    have hany : reg.any (fun p => p.1 == thread) = false := by
      simp only [List.any_eq_false]
      intro p hp
      simp only [beq_iff_eq]
      intro hEq
      exact hmem (List.mem_map.mpr ⟨p, hp, hEq⟩)
    simp [send_msg, hany]
  · have hany : (reactor_stopped reg thread).any (fun p => p.1 == thread) = false := by
      simp only [List.any_eq_false]
      intro p hp
      have h2 := (List.mem_filter.mp hp).2
      simpa using h2
    simp [send_msg, hany]
  · intro hmem
    obtain ⟨p, hp, hEq⟩ := List.mem_map.mp hmem
    have hany : reg.any (fun p => p.1 == thread) = true := by
      simp only [List.any_eq_true]
      exact ⟨p, hp, by simp [hEq]⟩
    simp [send_msg, hany]

/-- Witness for C5 at a concrete input: with reactor 0 live and reactor 1
stopped, sending to handle 1 returns false and leaves the registry unchanged. -/
theorem send_msg_stale_handle_returns_false_witness :
    send_msg ([(0, [])] : ReactorQueues Nat) 1
      ⟨iomgr_msg_type.RUN_METHOD, 0, 7⟩ = (false, [(0, [])]) :=
  (send_msg_stale_handle_returns_false Nat [(0, [])] 1
    ⟨iomgr_msg_type.RUN_METHOD, 0, 7⟩).1 (by decide)

/-- Modelled from the spec: the outcome of `start`: the manager state when the
call returns, whether the startup succeeded, and the resulting pool of worker
reactors (by slot number). -/
structure StartResult : Type where
  final_state : iomgr_state
  ok : Bool
  pool : List Nat
deriving DecidableEq, Repr

/-- Modelled from the spec: `start(num_threads, ...)` (declared
iomgr.hpp:75-76, body not under src/) spawns one reactor per requested thread
and counts down `m_yet_to_start_nreactors` (iomgr.hpp:235) as each signals.
`inits` records, one entry per spawned reactor, whether that reactor's startup
succeeded — every reactor signals the barrier either way, so the countdown
always completes and the barrier never hangs. If every reactor succeeds the
manager reaches `running` with the full pool; if any fails the whole startup
fails and the manager is left in `stopped` with no pool at all. -/
def start (inits : List Bool) : StartResult :=
  if inits.all (fun b => b) then
    ⟨iomgr_state.running, true, List.range inits.length⟩
  else
    ⟨iomgr_state.stopped, false, []⟩

/-- **C6.** If any reactor fails during startup, `start` fails atomically: it
returns (the barrier completes rather than hanging — `start` is a total
function of the per-reactor outcomes), the startup is surfaced as failed, the
manager is left in `stopped`, and the pool is empty — never a pool holding
only the reactors that did come up. When no reactor fails, `start` reaches
`running` with the full pool of `num_threads` reactors. -/
theorem start_fails_atomically (inits : List Bool) :
    (false ∈ inits →
      start inits = ⟨iomgr_state.stopped, false, []⟩) ∧
    (false ∉ inits →
      start inits = ⟨iomgr_state.running, true, List.range inits.length⟩) := by
  constructor
  · intro h
    have hall : inits.all (fun b => b) = false := by
      rw [List.all_eq_false]
      exact ⟨false, h, by simp⟩
    simp [start, hall]
  · intro h
    have hall : inits.all (fun b => b) = true := by
      rw [List.all_eq_true]
      intro b hb
      cases b with
      | false => exact absurd hb h
      | true => rfl
    simp [start, hall]

/-- Witness for C6 at a concrete input: with three reactors of which the
second fails, `start` ends in `stopped`, failed, with an empty pool. -/
theorem start_fails_atomically_witness :
    start [true, false, true] = ⟨iomgr_state.stopped, false, []⟩ :=
  (start_fails_atomically [true, false, true]).1 (by decide)

/-- The default-interface members of IOManager, generic in the interface types
D and G: `std::shared_ptr< DriveInterface > m_default_drive_iface;` and
`std::shared_ptr< GenericIOInterface > m_default_general_iface;`
(iomgr.hpp:242-243); `none` is an empty shared_ptr. -/
structure IfaceRegistry (D G : Type) : Type where
  m_default_drive_iface : Option D
  m_default_general_iface : Option G
deriving DecidableEq, Repr

/-- `default_drive_interface()` (iomgr.hpp:125): returns the raw pointer held
by `m_default_drive_iface` — null (`none`) when the shared_ptr is empty. -/
def default_drive_interface (m : IfaceRegistry D G) : Option D :=
  m.m_default_drive_iface

/-- `generic_interface()` (iomgr.hpp:126): returns the raw pointer held by
`m_default_general_iface` — null (`none`) when the shared_ptr is empty. -/
def generic_interface (m : IfaceRegistry D G) : Option G :=
  m.m_default_general_iface

/-- Modelled from the spec: before `interface_init` completes, no default has
been installed — the shared_ptr members still hold their default-constructed
empty value (the IOManager constructor body is not under src/). -/
def IfaceRegistry.pre_interface_init (D G : Type) : IfaceRegistry D G :=
  ⟨none, none⟩

/-- Modelled from the spec: the `interface_init` phase of a successful start
installs the designated default drive interface and default generic
interface, so after a successful start both are present. -/
def interface_init_install (d : D) (g : G) : IfaceRegistry D G :=
  ⟨some d, some g⟩

/-- **C7.** Before `interface_init` has completed, `default_drive_interface()`
and `generic_interface()` both return an absent reference (`none` — the null
raw pointer of an empty shared_ptr; the getters are total, so no crash);
after a successful start both return the designated default drive interface
and default generic interface respectively. -/
theorem default_interfaces_absent_before_init (D G : Type) (d : D) (g : G) :
    default_drive_interface (IfaceRegistry.pre_interface_init D G) = none ∧
    generic_interface (IfaceRegistry.pre_interface_init D G) = none ∧
    default_drive_interface (interface_init_install d g) = some d ∧
    generic_interface (interface_init_install d g) = some g :=
  ⟨rfl, rfl, rfl, rfl⟩

/-- Reactor classification flags (reactor.hpp not under src/; modelled from
the spec: a reactor is classified by independent flags io-capable, tight-loop,
worker). -/
structure IOReactor : Type where
  is_io_reactor : Bool
  is_tight_loop_reactor : Bool
  is_worker : Bool
deriving DecidableEq, Repr

/-- `am_i_io_reactor()` (iomgr.hpp:127-130): `auto r = this_reactor(); return
r && r->is_io_reactor();` — the `this_reactor()` result is modelled as an
optional reactor, a null pointer being `none`; `r && ...` short-circuits to
false on null before dereferencing. -/
def am_i_io_reactor (this_reactor : Option IOReactor) : Bool :=
  match this_reactor with
  | none => false
  | some r => r.is_io_reactor

/-- `am_i_tight_loop_reactor()` (iomgr.hpp:132-135):
`auto r = this_reactor(); return r && r->is_tight_loop_reactor();`. -/
def am_i_tight_loop_reactor (this_reactor : Option IOReactor) : Bool :=
  match this_reactor with
  | none => false
  | some r => r.is_tight_loop_reactor

/-- `am_i_worker_reactor()` (iomgr.hpp:137-140):
`auto r = this_reactor(); return r && r->is_worker();`. -/
def am_i_worker_reactor (this_reactor : Option IOReactor) : Bool :=
  match this_reactor with
  | none => false
  | some r => r.is_worker

/-- **C9.** When the calling thread is attached to no reactor
(`this_reactor()` yields null), `am_i_io_reactor`, `am_i_tight_loop_reactor`
and `am_i_worker_reactor` all return false rather than failing — the null
check comes before any flag query; and on a live reactor each returns exactly
that reactor's classification flag. -/
theorem am_i_queries_guard_null_reactor :
    (am_i_io_reactor none = false ∧
     am_i_tight_loop_reactor none = false ∧
     am_i_worker_reactor none = false) ∧
    (∀ r : IOReactor,
      am_i_io_reactor (some r) = r.is_io_reactor ∧
      am_i_tight_loop_reactor (some r) = r.is_tight_loop_reactor ∧
      am_i_worker_reactor (some r) = r.is_worker) :=
  ⟨⟨rfl, rfl, rfl⟩, fun _ => ⟨rfl, rfl, rfl⟩⟩

end Iomgr
